import Mathlib

/-!
Shallow embedding of the balance-ledger and referral layer of `db.py`
(PostgreSQL persistence of a storefront bot).

Monetary amounts are modelled as exact rationals, matching the exact
decimal semantics of the NUMERIC columns of the schema; Python's
`round(x, n)` is modelled by round-half-to-even at `n` fractional
digits.  The two tables the claims touch (`user_balances` and
`referrals`) are modelled as association lists from user id to row.
JSONB cells of the `referrals` table are modelled as the Python value
the database driver delivers for them (`PyVal`), and `json.loads` is
modelled by a small JSON parser over that value type.  Each operation
of `db.py` is translated statement by statement; a single SQL
statement (conditional UPDATE, upsert) is one atomic step, so a
concurrent schedule of calls is an interleaving of these atomic steps,
i.e. a sequence of the modelled operations.
-/

namespace JetDb

/-- Floor of a rational, computed with `Int.fdiv` (floor division). -/
def floorQ (q : ℚ) : ℤ := Int.fdiv q.num (q.den : ℤ)

/-- Round a rational to the nearest integer, ties to even: the
semantics of Python's builtin `round` at precision 0. -/
def halfEven (q : ℚ) : ℤ :=
  if q - (floorQ q : ℚ) < 1/2 then floorQ q
  else if 1/2 < q - (floorQ q : ℚ) then floorQ q + 1
  else if floorQ q % 2 = 0 then floorQ q else floorQ q + 1

/-- `roundTo n q` models Python's `round(q, n)` for `n` fractional
digits (used by `balance_add_rub` / `balance_deduct_rub` with `n = 2`
and the usdt variants with `n = 6`). -/
def roundTo (n : ℕ) (q : ℚ) : ℚ :=
  (halfEven (q * (10 : ℚ) ^ n) : ℚ) / (10 : ℚ) ^ n

/-- A Python value as delivered by the database driver for a JSONB
cell, or produced by `json.loads`.  Besides finite numbers, Python's
`json.loads` also produces the floats `nan`, `inf` and `-inf` for the
constants `NaN` / `Infinity` / `-Infinity` it accepts by default;
these are modelled by the dedicated constructors `vnan` / `vinf`. -/
inductive PyVal where
  | vnone
  | vbool (b : Bool)
  | vnum (q : ℚ)
  | vnan
  | vinf (neg : Bool)
  | vstr (s : String)
  | vlist (xs : List PyVal)
  | vdict (kvs : List (String × PyVal))

/-- Python truthiness (`bool(v)`) for the modelled values
(`float('nan')` and the infinities are truthy). -/
def pyTruthy : PyVal → Bool
  | .vnone => false
  | .vbool b => b
  | .vnum q => decide (q ≠ 0)
  | .vnan => true
  | .vinf _ => true
  | .vstr s => decide (s ≠ "")
  | .vlist xs => !xs.isEmpty
  | .vdict kvs => !kvs.isEmpty

/-- Whether a Python value is a list (`isinstance(v, list)`). -/
def PyVal.isList : PyVal → Bool
  | .vlist _ => true
  | _ => false

/-- Numeric payload of a Python value (0 for non-numbers); used only to
state concrete facts without deciding equality of `PyVal`. -/
def numOf : PyVal → ℚ
  | .vnum q => q
  | _ => 0

/-- String payload of a Python value ("" for non-strings). -/
def strOf : PyVal → String
  | .vstr s => s
  | _ => ""

/-! ### A model of `json.loads`

A recursive-descent parser of JSON texts into `PyVal`, fuelled to make
termination structural.  It follows what Python's `json.loads` accepts
by default: the JSON grammar — `null`, `true`, `false`, numbers
(integer part without leading zeros, optional fraction, optional
exponent), strings with the standard escapes, arrays and objects —
plus the constants `NaN`, `Infinity` and `-Infinity`; with the default
`strict=True`, raw control characters (code points below 0x20) inside
string literals are rejected and must be escaped. -/

/-- JSON insignificant whitespace. -/
def isWs (c : Char) : Bool :=
  c = ' ' || c = '\t' || c = '\n' || c = '\r'

def skipWs : List Char → List Char
  | [] => []
  | c :: rest => if isWs c then skipWs rest else c :: rest

/-- Value of one hexadecimal digit. -/
def hexVal (c : Char) : Option ℕ :=
  if c.isDigit then some (c.toNat - ('0').toNat)
  else if 'a' ≤ c ∧ c ≤ 'f' then some (c.toNat - ('a').toNat + 10)
  else if 'A' ≤ c ∧ c ≤ 'F' then some (c.toNat - ('A').toNat + 10)
  else Option.none

/-- Parse the remainder of a JSON string literal (the opening quote is
already consumed), decoding escape sequences.  As with `json.loads`'s
default `strict=True`, an unescaped control character (code point
below 0x20, e.g. a literal newline) makes the parse fail. -/
def parseStrChars : List Char → List Char → Option (String × List Char)
  | [], _ => Option.none
  | c :: rest, acc =>
    if c = '"' then some (String.mk acc.reverse, rest)
    else if c.toNat < 32 then Option.none
    else if c = '\\' then
      match rest with
      | [] => Option.none
      | e :: rest2 =>
        if e = '"' then parseStrChars rest2 ('"' :: acc)
        else if e = '\\' then parseStrChars rest2 ('\\' :: acc)
        else if e = '/' then parseStrChars rest2 ('/' :: acc)
        else if e = 'b' then parseStrChars rest2 (Char.ofNat 8 :: acc)
        else if e = 'f' then parseStrChars rest2 (Char.ofNat 12 :: acc)
        else if e = 'n' then parseStrChars rest2 ('\n' :: acc)
        else if e = 'r' then parseStrChars rest2 ('\r' :: acc)
        else if e = 't' then parseStrChars rest2 ('\t' :: acc)
        else if e = 'u' then
          match rest2 with
          | h1 :: h2 :: h3 :: h4 :: rest3 =>
            match hexVal h1, hexVal h2, hexVal h3, hexVal h4 with
            | some a, some b, some c2, some d =>
              parseStrChars rest3 (Char.ofNat (((a * 16 + b) * 16 + c2) * 16 + d) :: acc)
            | _, _, _, _ => Option.none
          | _ => Option.none
        else Option.none
    else parseStrChars rest (c :: acc)

/-- Take the leading run of decimal digits. -/
def spanDigits : List Char → List Char × List Char
  | [] => ([], [])
  | c :: rest =>
    if c.isDigit then
      let p := spanDigits rest
      (c :: p.1, p.2)
    else ([], c :: rest)

def digitsToNat (ds : List Char) : ℕ :=
  ds.foldl (fun acc c => 10 * acc + (c.toNat - ('0').toNat)) 0

/-- Optional fractional part `.digits` of a JSON number. -/
def parseFrac (cs : List Char) : Option (ℚ × List Char) :=
  match cs with
  | '.' :: rest =>
    let p := spanDigits rest
    if p.1.isEmpty then Option.none
    else some ((digitsToNat p.1 : ℚ) / (10 : ℚ) ^ p.1.length, p.2)
  | _ => some (0, cs)

/-- Optional exponent part `e[+-]digits` of a JSON number. -/
def parseExpPart (cs : List Char) : Option (ℤ × List Char) :=
  match cs with
  | [] => some (0, [])
  | c :: rest =>
    if c = 'e' ∨ c = 'E' then
      let sp :=
        match rest with
        | '+' :: r2 => ((1 : ℤ), r2)
        | '-' :: r2 => ((-1 : ℤ), r2)
        | _ => ((1 : ℤ), rest)
      let p := spanDigits sp.2
      if p.1.isEmpty then Option.none
      else some (sp.1 * (digitsToNat p.1 : ℤ), p.2)
    else some (0, c :: rest)

def qpow10 (e : ℤ) : ℚ :=
  if 0 ≤ e then (10 : ℚ) ^ e.toNat else 1 / (10 : ℚ) ^ (-e).toNat

/-- Parse a JSON number. -/
def parseNum (cs : List Char) : Option (ℚ × List Char) :=
  let sp :=
    match cs with
    | '-' :: rest => (true, rest)
    | _ => (false, cs)
  let p := spanDigits sp.2
  match p.1 with
  | [] => Option.none
  | '0' :: _ :: _ => Option.none
  | ds =>
    match parseFrac p.2 with
    | Option.none => Option.none
    | some (fq, cs3) =>
      match parseExpPart cs3 with
      | Option.none => Option.none
      | some (e, cs4) =>
        let mag := ((digitsToNat ds : ℚ) + fq) * qpow10 e
        some (if sp.1 then -mag else mag, cs4)

/-- Match a literal keyword tail. -/
def matchChars (p : List Char) (cs : List Char) : Option (List Char) :=
  match p, cs with
  | [], rest => some rest
  | a :: ps, c :: rest => if c = a then matchChars ps rest else Option.none
  | _ :: _, [] => Option.none

mutual

/-- Parse one JSON value. -/
def parseVal (fuel : ℕ) (cs : List Char) : Option (PyVal × List Char) :=
  match fuel with
  | 0 => Option.none
  | fuel + 1 =>
    match skipWs cs with
    | [] => Option.none
    | c :: rest =>
      if c = 'n' then (matchChars (['u', 'l', 'l']) rest).map (fun r => (PyVal.vnone, r))
      else if c = 't' then (matchChars (['r', 'u', 'e']) rest).map (fun r => (PyVal.vbool true, r))
      else if c = 'f' then (matchChars (['a', 'l', 's', 'e']) rest).map (fun r => (PyVal.vbool false, r))
      else if c = '"' then (parseStrChars rest []).map (fun p => (PyVal.vstr p.1, p.2))
      else if c = '[' then
        match skipWs rest with
        | ']' :: rest2 => some (PyVal.vlist [], rest2)
        | cs2 => (parseElems fuel cs2).map (fun p => (PyVal.vlist p.1, p.2))
      else if c = '{' then
        match skipWs rest with
        | '}' :: rest2 => some (PyVal.vdict [], rest2)
        | cs2 => (parseMembers fuel cs2).map (fun p => (PyVal.vdict p.1, p.2))
      else if c = 'N' then
        (matchChars (['a', 'N']) rest).map (fun r => (PyVal.vnan, r))
      else if c = 'I' then
        (matchChars (['n', 'f', 'i', 'n', 'i', 't', 'y']) rest).map
          (fun r => (PyVal.vinf false, r))
      else if c = '-' then
        match rest with
        | 'I' :: rest2 =>
          (matchChars (['n', 'f', 'i', 'n', 'i', 't', 'y']) rest2).map
            (fun r => (PyVal.vinf true, r))
        | _ => (parseNum (c :: rest)).map (fun p => (PyVal.vnum p.1, p.2))
      else if c.isDigit then (parseNum (c :: rest)).map (fun p => (PyVal.vnum p.1, p.2))
      else Option.none

/-- Parse the elements of a non-empty JSON array, up to and including
the closing bracket. -/
def parseElems (fuel : ℕ) (cs : List Char) : Option (List PyVal × List Char) :=
  match fuel with
  | 0 => Option.none
  | fuel + 1 =>
    match parseVal fuel cs with
    | Option.none => Option.none
    | some (v, rest) =>
      match skipWs rest with
      | ',' :: rest2 => (parseElems fuel rest2).map (fun p => (v :: p.1, p.2))
      | ']' :: rest2 => some ([v], rest2)
      | _ => Option.none

/-- Parse the members of a non-empty JSON object, up to and including
the closing brace. -/
def parseMembers (fuel : ℕ) (cs : List Char) : Option (List (String × PyVal) × List Char) :=
  match fuel with
  | 0 => Option.none
  | fuel + 1 =>
    match skipWs cs with
    | '"' :: rest =>
      match parseStrChars rest [] with
      | Option.none => Option.none
      | some (k, rest2) =>
        match skipWs rest2 with
        | ':' :: rest3 =>
          match parseVal fuel rest3 with
          | Option.none => Option.none
          | some (v, rest4) =>
            match skipWs rest4 with
            | ',' :: rest5 => (parseMembers fuel rest5).map (fun p => ((k, v) :: p.1, p.2))
            | '}' :: rest5 => some ([(k, v)], rest5)
            | _ => Option.none
        | _ => Option.none
    | _ => Option.none

end

/-- Model of Python `json.loads`: parse the whole text as one JSON
value, returning `Option.none` on any error (the caller catches the
exception). -/
def jsonLoads (s : String) : Option PyVal :=
  match parseVal (s.length * 2 + 2) s.data with
  | some (v, rest) => if (skipWs rest).isEmpty then some v else Option.none
  | Option.none => Option.none

/-! ### Data model: the two tables the claims are about -/

/-- One row of the `user_balances` table (timestamps are not
modelled).  The same shape is the dict `{ balance_rub, balance_usdt }`
returned by `balance_get` / `balance_deduct_rub` / `balance_deduct_usdt`. -/
structure BalRow where
  balance_rub : ℚ
  balance_usdt : ℚ
deriving DecidableEq

/-- One row of the `referrals` table (timestamps are not modelled).
The three `referrals_l*` JSONB cells are modelled as the Python value
the driver delivers for them. -/
structure RefRow where
  parent1 : Option String
  parent2 : Option String
  parent3 : Option String
  referrals_l1 : PyVal
  referrals_l2 : PyVal
  referrals_l3 : PyVal
  earned_rub : ℚ
  volume_rub : ℚ
  username : String
  first_name : String

/-- The dict built by `_row_to_ref`. -/
structure RefOut where
  parent1 : Option String
  parent2 : Option String
  parent3 : Option String
  referrals_l1 : PyVal
  referrals_l2 : PyVal
  referrals_l3 : PyVal
  earned_rub : ℚ
  volume_rub : ℚ
  username : String
  first_name : String

/-- A well-typed referral record as passed to `ref_save` (the shape
the application maintains: the `referrals_l*` entries are lists of
user ids, as in the spec's data model). -/
structure RefData where
  parent1 : Option String
  parent2 : Option String
  parent3 : Option String
  referrals_l1 : List String
  referrals_l2 : List String
  referrals_l3 : List String
  earned_rub : ℚ
  volume_rub : ℚ
  username : String
  first_name : String

/-- The durable-store state: the module-level `_db_enabled` flag plus
the two tables.  Other tables of the schema are not touched by the
operations under study. -/
structure DB where
  enabled : Bool
  balances : List (String × BalRow)
  referrals : List (String × RefRow)

/-- `SELECT ... WHERE user_id = $1` on a keyed table: first row with
the given key. -/
def getRow {α : Type} : List (String × α) → String → Option α
  | [], _ => Option.none
  | (k, v) :: rest, u => if k = u then some v else getRow rest u

/-- Keyed upsert: replace the row with the given key in place, or
append a new one (`INSERT ... ON CONFLICT (user_id) DO UPDATE`). -/
def putRow {α : Type} : List (String × α) → String → α → List (String × α)
  | [], u, v => [(u, v)]
  | (k, w) :: rest, u, v => if k = u then (u, v) :: rest else (k, w) :: putRow rest u v

/-! ### Balance operations (`db.py` lines 385-478) -/

/-- `balance_get`: returns `{ balance_rub, balance_usdt }`, zeros when
the store is disabled or the row is absent. -/
def balance_get (db : DB) (user_id : String) : BalRow :=
  if db.enabled = false then ⟨0, 0⟩ else
  match getRow db.balances user_id with
  | some row => ⟨row.balance_rub, row.balance_usdt⟩
  | Option.none => ⟨0, 0⟩

/-- `balance_add_rub`: reject non-positive amounts and the disabled
store; otherwise round to 2 digits and atomically upsert
(`INSERT ... VALUES ($1, $2, 0) ON CONFLICT DO UPDATE SET balance_rub
= user_balances.balance_rub + EXCLUDED.balance_rub`).  Returns the
success flag (a `Bool`, as in the source). -/
def balance_add_rub (db : DB) (user_id : String) (amount : ℚ) : DB × Bool :=
  if db.enabled = false ∨ amount ≤ 0 then (db, false) else
  match getRow db.balances user_id with
  | Option.none =>
    ({ db with balances := putRow db.balances user_id ⟨roundTo 2 amount, 0⟩ }, true)
  | some r =>
    ({ db with balances := (putRow db.balances user_id
        ⟨r.balance_rub + roundTo 2 amount, r.balance_usdt⟩) }, true)

/-- `balance_add_usdt`: as `balance_add_rub` with 6-digit rounding on
the `balance_usdt` field. -/
def balance_add_usdt (db : DB) (user_id : String) (amount : ℚ) : DB × Bool :=
  if db.enabled = false ∨ amount ≤ 0 then (db, false) else
  match getRow db.balances user_id with
  | Option.none =>
    ({ db with balances := putRow db.balances user_id ⟨0, roundTo 6 amount⟩ }, true)
  | some r =>
    ({ db with balances := (putRow db.balances user_id
        ⟨r.balance_rub, r.balance_usdt + roundTo 6 amount⟩) }, true)

/-- `balance_deduct_rub`: one conditional atomic
`UPDATE ... SET balance_rub = balance_rub - $2 WHERE user_id = $1 AND
balance_rub >= $2 RETURNING ...`; on no matching row the extra SELECT
changes nothing and the function returns `None`. -/
def balance_deduct_rub (db : DB) (user_id : String) (amount : ℚ) : DB × Option BalRow :=
  if db.enabled = false ∨ amount ≤ 0 then (db, Option.none) else
  match getRow db.balances user_id with
  | some r =>
    if roundTo 2 amount ≤ r.balance_rub then
      ({ db with balances := (putRow db.balances user_id
          ⟨r.balance_rub - roundTo 2 amount, r.balance_usdt⟩) },
        some ⟨r.balance_rub - roundTo 2 amount, r.balance_usdt⟩)
    else (db, Option.none)
  | Option.none => (db, Option.none)

/-- `balance_deduct_usdt`: as `balance_deduct_rub` on the
`balance_usdt` field with 6-digit rounding. -/
def balance_deduct_usdt (db : DB) (user_id : String) (amount : ℚ) : DB × Option BalRow :=
  if db.enabled = false ∨ amount ≤ 0 then (db, Option.none) else
  match getRow db.balances user_id with
  | some r =>
    if roundTo 6 amount ≤ r.balance_usdt then
      ({ db with balances := (putRow db.balances user_id
          ⟨r.balance_rub, r.balance_usdt - roundTo 6 amount⟩) },
        some ⟨r.balance_rub, r.balance_usdt - roundTo 6 amount⟩)
    else (db, Option.none)
  | Option.none => (db, Option.none)

/-! ### Referral operations (`db.py` lines 130-243) -/

/-- Body of the coercion loop of `_row_to_ref` for one `referrals_l*`
cell: keep lists; on strings, `json.loads` guarded by emptiness with
a bare `except` falling back to `[]`; otherwise `[]` for `None` and
non-iterables, and `list(v)` (the key list) for mappings. -/
def coerceCell : PyVal → PyVal
  | .vlist xs => .vlist xs
  | .vstr s =>
    if s = "" then .vlist [] else
    match jsonLoads s with
    | some j => j
    | Option.none => .vlist []
  | .vnone => .vlist []
  | .vdict kvs => .vlist (kvs.map (fun kv => PyVal.vstr kv.1))
  | .vbool _ => .vlist []
  | .vnum _ => .vlist []
  | .vnan => .vlist []
  | .vinf _ => .vlist []

/-- `x or []` on the coerced cell value in the final dict literal of
`_row_to_ref`. -/
def orEmpty (v : PyVal) : PyVal := if pyTruthy v then v else .vlist []

/-- `_row_to_ref`: build the referral dict from a row.  `float(x or 0)`
and `x or ""` are identities in the exact model. -/
def _row_to_ref (row : RefRow) : RefOut :=
  { parent1 := row.parent1
    parent2 := row.parent2
    parent3 := row.parent3
    referrals_l1 := orEmpty (coerceCell row.referrals_l1)
    referrals_l2 := orEmpty (coerceCell row.referrals_l2)
    referrals_l3 := orEmpty (coerceCell row.referrals_l3)
    earned_rub := row.earned_rub
    volume_rub := row.volume_rub
    username := row.username
    first_name := row.first_name }

/-- The row created by
`INSERT INTO referrals (user_id, referrals_l1, referrals_l2,
referrals_l3) VALUES ($1, '[]', '[]', '[]')` with the column defaults
of the schema. -/
def defaultRefRow : RefRow :=
  ⟨Option.none, Option.none, Option.none, .vlist [], .vlist [], .vlist [], 0, 0, "", ""⟩

/-- `ref_get_or_create`: `None` when the store is disabled; otherwise
return the existing row through `_row_to_ref`, or insert the default
row and return it (in the sequential model the re-SELECT after the
insert always finds the row, so the literal fallback dict of the
source is unreachable). -/
def ref_get_or_create (db : DB) (user_id : String) : DB × Option RefOut :=
  if db.enabled = false then (db, Option.none) else
  match getRow db.referrals user_id with
  | some row => (db, some (_row_to_ref row))
  | Option.none =>
    ({ db with referrals := putRow db.referrals user_id defaultRefRow },
      some (_row_to_ref defaultRefRow))

/-- `ref_save`: wholesale upsert of one referral row
(`INSERT ... ON CONFLICT (user_id) DO UPDATE SET` every field).  The
`referrals_l*` lists are passed through `json.dumps` and stored in
JSONB cells, which the driver later delivers as the decoded list
again, so the stored cell is the list value itself; `x or []`,
`float(x or 0)` and `x or ""` are identities on the well-typed
record. -/
def ref_save (db : DB) (user_id : String) (data : RefData) : DB :=
  if db.enabled = false then db else
  let row : RefRow :=
    { parent1 := data.parent1
      parent2 := data.parent2
      parent3 := data.parent3
      referrals_l1 := .vlist (data.referrals_l1.map PyVal.vstr)
      referrals_l2 := .vlist (data.referrals_l2.map PyVal.vstr)
      referrals_l3 := .vlist (data.referrals_l3.map PyVal.vstr)
      earned_rub := data.earned_rub
      volume_rub := data.volume_rub
      username := data.username
      first_name := data.first_name }
  { db with referrals := putRow db.referrals user_id row }

/-- `ref_add_earned`: one
`UPDATE referrals SET volume_rub = volume_rub + $2, earned_rub =
earned_rub + $3 WHERE user_id = $1`; no row matched means no change.
There is no validation of the deltas. -/
def ref_add_earned (db : DB) (user_id : String) (volume_delta earned_delta : ℚ) : DB :=
  if db.enabled = false then db else
  match getRow db.referrals user_id with
  | Option.none => db
  | some r =>
    let r2 : RefRow :=
      { r with volume_rub := r.volume_rub + volume_delta,
               earned_rub := r.earned_rub + earned_delta }
    { db with referrals := putRow db.referrals user_id r2 }

/-- `ref_load_all`: empty mapping when disabled, otherwise every row
through `_row_to_ref`. -/
def ref_load_all (db : DB) : List (String × RefOut) :=
  if db.enabled = false then [] else
  db.referrals.map (fun p => (p.1, _row_to_ref p.2))

/-! ### Sequences of balance operations (for the invariant and
concurrency claims) -/

/-- One credit or debit call (the four mutating balance operations). -/
inductive BalOp where
  | addRub (u : String) (a : ℚ)
  | addUsdt (u : String) (a : ℚ)
  | deductRub (u : String) (a : ℚ)
  | deductUsdt (u : String) (a : ℚ)

/-- Apply one operation to the store (each call's store effect is one
atomic statement). -/
def applyOp (db : DB) : BalOp → DB
  | .addRub u a => (balance_add_rub db u a).1
  | .addUsdt u a => (balance_add_usdt db u a).1
  | .deductRub u a => (balance_deduct_rub db u a).1
  | .deductUsdt u a => (balance_deduct_usdt db u a).1

/-- Run a sequence of credit/debit calls; any concurrent schedule of
these single-statement atomic calls is one such sequence. -/
def runOps (db : DB) (ops : List BalOp) : DB := ops.foldl applyOp db

/-- Every row of a balances table has non-negative fields. -/
def balTableInv (t : List (String × BalRow)) : Prop :=
  ∀ u r, getRow t u = some r → 0 ≤ r.balance_rub ∧ 0 ≤ r.balance_usdt

/-- The storage invariant of `user_balances` (the CHECK constraints of
the schema): every stored row has non-negative fields. -/
def balInv (db : DB) : Prop := balTableInv db.balances

/-- Run a batch of rub debits against one user (any interleaving of N
concurrent `balance_deduct_rub` calls, each being one atomic
statement) and collect each call's result. -/
def deductResults : DB → String → List ℚ → DB × List (Option BalRow)
  | db, _, [] => (db, [])
  | db, u, a :: rest =>
    let p := balance_deduct_rub db u a
    let q := deductResults p.1 u rest
    (q.1, p.2 :: q.2)

/-- Sum of the effective (2-digit rounded) amounts of the calls that
succeeded. -/
def succRounded : List ℚ → List (Option BalRow) → ℚ
  | a :: as, some _ :: rs => roundTo 2 a + succRounded as rs
  | _ :: as, Option.none :: rs => succRounded as rs
  | _, _ => 0

/-- Sum of the nominal (requested) amounts of the calls that
succeeded. -/
def succNominal : List ℚ → List (Option BalRow) → ℚ
  | a :: as, some _ :: rs => a + succNominal as rs
  | _ :: as, Option.none :: rs => succNominal as rs
  | _, _ => 0

/-- The referrals cell shapes claimed by C10 to come back as the empty
list: `None`, non-list plain (non-iterable) values, and strings that
are empty, invalid JSON, or parse to a falsy value. -/
def plainBadCell : PyVal → Bool
  | .vnone => true
  | .vbool _ => true
  | .vnum _ => true
  | .vnan => true
  | .vinf _ => true
  | .vstr s =>
    if s = "" then true else
    match jsonLoads s with
    | Option.none => true
    | some j => !pyTruthy j
  | _ => false

/-! ### Concrete states used by witnesses and counterexamples -/

def uS : String := "u1"
def sA : String := "A"
def sB : String := "B"
def s5 : String := "5"
def sXyz : String := "xyz"

/-- Enabled store, no rows. -/
def dbEmptyE : DB := ⟨true, [], []⟩

/-- Disabled store, no rows. -/
def dbDisabled : DB := ⟨false, [], []⟩

/-- Enabled store, `uS` has rub balance 100. -/
def dbHundred : DB := ⟨true, [(uS, ⟨100, 0⟩)], []⟩

/-- Enabled store, `uS` has rub balance 10 and usdt balance 3. -/
def dbTen : DB := ⟨true, [(uS, ⟨10, 3⟩)], []⟩

/-- Enabled store, `uS` has zero balances. -/
def dbZeroBal : DB := ⟨true, [(uS, ⟨0, 0⟩)], []⟩

/-- A referral row with volume 10 and empty lists. -/
def refRowTen : RefRow :=
  ⟨Option.none, Option.none, Option.none, .vlist [], .vlist [], .vlist [], 0, 10, "", ""⟩

/-- Disabled store that still holds a referral row (the durable store
has data but the connection failed at startup). -/
def dbDisRef : DB := ⟨false, [], [(uS, refRowTen)]⟩

/-- Enabled store holding the same referral row. -/
def dbRefEnabled : DB := ⟨true, [], [(uS, refRowTen)]⟩

/-- A referral row whose parent1 is already set to `sA`. -/
def refRowParentA : RefRow :=
  ⟨some sA, Option.none, Option.none, .vlist [], .vlist [], .vlist [], 0, 0, "", ""⟩

def dbParentA : DB := ⟨true, [], [(uS, refRowParentA)]⟩

/-- An enrollment record pointing at a different parent `sB`. -/
def dataParentB : RefData :=
  ⟨some sB, Option.none, Option.none, [], [], [], 0, 0, "", ""⟩

/-- A richer record for the round-trip witness. -/
def dataW : RefData :=
  ⟨some sA, some sB, Option.none, [sB], [], [sA], 7, 21, "", ""⟩

/-- A referral row whose `referrals_l1` cell is the Python string
`"5"` (e.g. the text of a stored JSONB scalar, or a stored JSON
string whose content is `5`). -/
def rowJson5 : RefRow :=
  ⟨Option.none, Option.none, Option.none, .vstr s5, .vlist [], .vlist [], 0, 0, "", ""⟩

def dbJson : DB := ⟨true, [], [(uS, rowJson5)]⟩

/-- A row exercising the defended cell shapes: `None`, an invalid-JSON
string, and a plain number. -/
def rowBadCells : RefRow :=
  ⟨Option.none, Option.none, Option.none, .vnone, .vstr sXyz, .vnum 7, 0, 0, "", ""⟩

def dbBadCells : DB := ⟨true, [], [(uS, rowBadCells)]⟩

/-- The zero-valued referral record (what C8 claims `ref_get_or_create`
returns when the store is disabled). -/
def zeroRefOut : RefOut :=
  ⟨Option.none, Option.none, Option.none, .vlist [], .vlist [], .vlist [], 0, 0, "", ""⟩

/-- A sequence of operations exercised by the C1 witness. -/
def opsW : List BalOp := [.addRub uS 50, .deductRub uS 20]

/-! ## Helper lemmas -/

theorem floorQ_nonneg (q : ℚ) (h : 0 ≤ q) : 0 ≤ floorQ q := by
  unfold floorQ
  exact Int.fdiv_nonneg (Rat.num_nonneg.mpr h) (by exact_mod_cast Nat.zero_le q.den)

theorem halfEven_nonneg (q : ℚ) (h : 0 ≤ q) : 0 ≤ halfEven q := by
  have hf := floorQ_nonneg q h
  unfold halfEven
  split
  · exact hf
  · split
    · omega
    · split
      · exact hf
      · omega

theorem roundTo_nonneg (n : ℕ) (q : ℚ) (h : 0 ≤ q) : 0 ≤ roundTo n q := by
  unfold roundTo
  apply div_nonneg
  · exact_mod_cast halfEven_nonneg _ (by positivity)
  · positivity

theorem getRow_putRow {α : Type} (t : List (String × α)) (k u : String) (v : α) :
    getRow (putRow t k v) u = if k = u then some v else getRow t u := by
  induction t with
  | nil => rfl
  | cons p rest ih =>
    obtain ⟨pk, pv⟩ := p
    simp only [putRow]
    by_cases hp : pk = k
    · rw [if_pos hp]
      simp only [getRow]
      by_cases hu : k = u
      · rw [if_pos hu, if_pos hu]
      · rw [if_neg hu, if_neg hu, if_neg (show ¬ pk = u from hp ▸ hu)]
    · rw [if_neg hp]
      simp only [getRow]
      by_cases hu : pk = u
      · have hk : ¬ k = u := fun h2 => hp (hu.trans h2.symm)
        rw [if_pos hu, if_neg hk, if_pos hu]
      · rw [if_neg hu, if_neg hu, ih]

theorem getRow_mem {α : Type} (t : List (String × α)) (u : String) (v : α)
    (h : getRow t u = some v) : (u, v) ∈ t := by
  induction t with
  | nil => exact Option.noConfusion h
  | cons p rest ih =>
    obtain ⟨pk, pv⟩ := p
    simp only [getRow] at h
    by_cases hp : pk = u
    · rw [if_pos hp] at h
      injection h with h2
      rw [← hp, ← h2]
      exact List.mem_cons_self _ _
    · rw [if_neg hp] at h
      exact List.mem_cons_of_mem _ (ih h)

theorem orEmpty_coerce_vlist (l : List PyVal) :
    orEmpty (coerceCell (.vlist l)) = .vlist l := by
  cases l with
  | nil => rfl
  | cons a as => rfl

/-- Any cell shape listed by C10 really does come back as the empty
list from the coercion of `_row_to_ref`. -/
theorem badCell_empty (v : PyVal) (h : plainBadCell v = true) :
    orEmpty (coerceCell v) = PyVal.vlist [] := by
  cases v with
  | vnone => rfl
  | vbool b => rfl
  | vnum q => rfl
  | vnan => rfl
  | vinf b => rfl
  | vlist xs => exact absurd h (by simp [plainBadCell])
  | vdict kvs => exact absurd h (by simp [plainBadCell])
  | vstr s =>
    simp only [plainBadCell] at h
    simp only [coerceCell]
    by_cases hs : s = ""
    · rw [if_pos hs]
      rfl
    · rw [if_neg hs] at h ⊢
      cases hj : jsonLoads s with
      | none => rfl
      | some j =>
        rw [hj] at h
        show orEmpty j = PyVal.vlist []
        have h2 : pyTruthy j = false := by
          simpa using h
        simp only [orEmpty]
        rw [h2]
        rfl

theorem balTableInv_put (t : List (String × BalRow)) (u : String) (row : BalRow)
    (h : balTableInv t) (h1 : 0 ≤ row.balance_rub) (h2 : 0 ≤ row.balance_usdt) :
    balTableInv (putRow t u row) := by
  unfold balTableInv
  intro u' r' hr'
  rw [getRow_putRow] at hr'
  by_cases he : u = u'
  · rw [if_pos he] at hr'
    cases hr'
    exact ⟨h1, h2⟩
  · rw [if_neg he] at hr'
    exact h u' r' hr'

/-- Each of the four mutating balance calls preserves the
non-negativity invariant of the `user_balances` table. -/
theorem balInv_applyOp (db : DB) (op : BalOp) (h : balInv db) : balInv (applyOp db op) := by
  cases op with
  | addRub u a =>
    show balInv (balance_add_rub db u a).1
    unfold balance_add_rub
    split
    · exact h
    · rename_i hc
      push_neg at hc
      have ha : 0 ≤ a := hc.2.le
      split
      · rename_i hrow
        refine balTableInv_put db.balances u _ h ?_ ?_
        · exact roundTo_nonneg 2 a ha
        · exact le_rfl
      · rename_i r hrow
        refine balTableInv_put db.balances u _ h ?_ ?_
        · exact add_nonneg (h u r hrow).1 (roundTo_nonneg 2 a ha)
        · exact (h u r hrow).2
  | addUsdt u a =>
    show balInv (balance_add_usdt db u a).1
    unfold balance_add_usdt
    split
    · exact h
    · rename_i hc
      push_neg at hc
      have ha : 0 ≤ a := hc.2.le
      split
      · rename_i hrow
        refine balTableInv_put db.balances u _ h ?_ ?_
        · exact le_rfl
        · exact roundTo_nonneg 6 a ha
      · rename_i r hrow
        refine balTableInv_put db.balances u _ h ?_ ?_
        · exact (h u r hrow).1
        · exact add_nonneg (h u r hrow).2 (roundTo_nonneg 6 a ha)
  | deductRub u a =>
    show balInv (balance_deduct_rub db u a).1
    unfold balance_deduct_rub
    split
    · exact h
    · split
      · rename_i r hrow
        split
        · rename_i hle
          refine balTableInv_put db.balances u _ h ?_ ?_
          · exact sub_nonneg.mpr hle
          · exact (h u r hrow).2
        · exact h
      · exact h
  | deductUsdt u a =>
    show balInv (balance_deduct_usdt db u a).1
    unfold balance_deduct_usdt
    split
    · exact h
    · split
      · rename_i r hrow
        split
        · rename_i hle
          refine balTableInv_put db.balances u _ h ?_ ?_
          · exact (h u r hrow).1
          · exact sub_nonneg.mpr hle
        · exact h
      · exact h

theorem balInv_runOps (db : DB) (ops : List BalOp) (h : balInv db) :
    balInv (runOps db ops) := by
  induction ops generalizing db with
  | nil => exact h
  | cons op rest ih => exact ih _ (balInv_applyOp db op h)

/-- Case analysis of one `balance_deduct_rub` call: either it leaves
the store untouched and returns `None`, or the row exists, has at
least the rounded amount, and the call subtracts exactly the rounded
amount. -/
theorem deduct_step (db : DB) (u : String) (a : ℚ) :
    balance_deduct_rub db u a = (db, Option.none)
    ∨ (∃ r, getRow db.balances u = some r ∧ roundTo 2 a ≤ r.balance_rub ∧
        balance_deduct_rub db u a =
          ({ db with balances :=
              (putRow db.balances u ⟨r.balance_rub - roundTo 2 a, r.balance_usdt⟩) },
            some ⟨r.balance_rub - roundTo 2 a, r.balance_usdt⟩)) := by
  unfold balance_deduct_rub
  split
  · left
    rfl
  · split
    · rename_i r hrow
      split
      · rename_i hle
        right
        exact ⟨r, hrow, hle, rfl⟩
      · left
        rfl
    · left
      rfl

theorem deductResults_len (amts : List ℚ) :
    ∀ (db : DB) (u : String), (deductResults db u amts).2.length = amts.length := by
  induction amts with
  | nil =>
    intro db u
    rfl
  | cons a rest ih =>
    intro db u
    show ((deductResults (balance_deduct_rub db u a).1 u rest).1,
      (balance_deduct_rub db u a).2 ::
        (deductResults (balance_deduct_rub db u a).1 u rest).2).2.length = rest.length + 1
    simp [ih]

/-- The effective (rounded) amounts of the debits that succeed in a
batch never exceed the starting balance. -/
theorem succRounded_le (amts : List ℚ) :
    ∀ (db : DB) (u : String) (r : BalRow),
      getRow db.balances u = some r → 0 ≤ r.balance_rub →
      succRounded amts (deductResults db u amts).2 ≤ r.balance_rub := by
  induction amts with
  | nil =>
    intro db u r hr hnn
    simpa [deductResults, succRounded] using hnn
  | cons a rest ih =>
    intro db u r hr hnn
    have hexp : deductResults db u (a :: rest) =
        ((deductResults (balance_deduct_rub db u a).1 u rest).1,
          (balance_deduct_rub db u a).2 ::
            (deductResults (balance_deduct_rub db u a).1 u rest).2) := rfl
    rcases deduct_step db u a with hfail | ⟨r0, hr0, hle, heq⟩
    · rw [hexp, hfail]
      show succRounded rest (deductResults db u rest).2 ≤ r.balance_rub
      exact ih db u r hr hnn
    · rw [hr] at hr0
      injection hr0 with h2
      subst h2
      rw [hexp, heq]
      show roundTo 2 a + succRounded rest
          (deductResults ({ db with balances :=
            (putRow db.balances u ⟨r.balance_rub - roundTo 2 a, r.balance_usdt⟩) }) u rest).2
        ≤ r.balance_rub
      have hrow2 : getRow ({ db with balances :=
          (putRow db.balances u ⟨r.balance_rub - roundTo 2 a, r.balance_usdt⟩) } : DB).balances u
          = some ⟨r.balance_rub - roundTo 2 a, r.balance_usdt⟩ := by
        show getRow (putRow db.balances u ⟨r.balance_rub - roundTo 2 a, r.balance_usdt⟩) u = _
        rw [getRow_putRow, if_pos rfl]
      have htail2 : succRounded rest
          (deductResults ({ db with balances :=
            (putRow db.balances u ⟨r.balance_rub - roundTo 2 a, r.balance_usdt⟩) }) u rest).2
          ≤ r.balance_rub - roundTo 2 a :=
        ih _ u _ hrow2 (show (0:ℚ) ≤ r.balance_rub - roundTo 2 a by linarith)
      linarith

/-! ## Claim theorems -/

/-- C1: for every user, after any sequence of credit and debit
operations (`balance_add_rub`, `balance_add_usdt`,
`balance_deduct_rub`, `balance_deduct_usdt`) starting from a store
whose rows are all non-negative, the stored `balance_rub` and
`balance_usdt` are both ≥ 0; no operation can make either field
negative. -/
theorem c1_balances_nonneg (db : DB) (ops : List BalOp) (h : balInv db)
    (u : String) (r : BalRow) (hr : getRow (runOps db ops).balances u = some r) :
    0 ≤ r.balance_rub ∧ 0 ≤ r.balance_usdt :=
  balInv_runOps db ops h u r hr

/-- Witness for C1: from the empty store, credit 50 then debit 20
leaves the stored row at `(30, 0)`, which is non-negative. -/
theorem c1_witness :
    balInv dbEmptyE
    ∧ getRow (runOps dbEmptyE opsW).balances uS = some ⟨30, 0⟩
    ∧ (0 ≤ (30:ℚ) ∧ 0 ≤ (0:ℚ)) := by
  have h0 : balInv dbEmptyE := fun u r hr => nomatch hr
  have hr : getRow (runOps dbEmptyE opsW).balances uS = some ⟨30, 0⟩ := by
    with_unfolding_all rfl
  exact ⟨h0, hr, c1_balances_nonneg dbEmptyE opsW h0 uS ⟨30, 0⟩ hr⟩

/-- Counterexample to C2 as stated: with a stored rub balance of 10,
a debit of `10.004` succeeds (returning balance 0) even though the
pre-update balance is strictly below the requested amount, because the
code compares against `round(amount, 2) = 10`, not `amount`. -/
theorem c2_counterexample :
    (getRow dbTen.balances uS).map (fun r => r.balance_rub) = some 10
    ∧ ((10:ℚ) < 10 + 1/250)
    ∧ (balance_deduct_rub dbTen uS (10 + 1/250)).2 = some ⟨0, 3⟩ := by
  refine ⟨by with_unfolding_all rfl, by norm_num, by with_unfolding_all rfl⟩

/-- C2 (amended): with the store enabled and `amount > 0`, the debit
operations subtract `round(amount, precision)` (2 digits for rub, 6
for usdt) and return the post-update balance exactly when the
pre-update balance of that currency is ≥ the rounded amount; when the
row is absent or the pre-update balance is below the rounded amount
they return `None` and leave the store unchanged. -/
theorem c2_deduct_conditional (db : DB) (u : String) (am : ℚ)
    (hen : db.enabled = true) (hpos : 0 < am) :
    (∀ r, getRow db.balances u = some r → roundTo 2 am ≤ r.balance_rub →
      balance_deduct_rub db u am =
        ({ db with balances := (putRow db.balances u
            ⟨r.balance_rub - roundTo 2 am, r.balance_usdt⟩) },
          some ⟨r.balance_rub - roundTo 2 am, r.balance_usdt⟩))
    ∧ (∀ r, getRow db.balances u = some r → r.balance_rub < roundTo 2 am →
      balance_deduct_rub db u am = (db, Option.none))
    ∧ (getRow db.balances u = Option.none →
      balance_deduct_rub db u am = (db, Option.none))
    ∧ (∀ r, getRow db.balances u = some r → roundTo 6 am ≤ r.balance_usdt →
      balance_deduct_usdt db u am =
        ({ db with balances := (putRow db.balances u
            ⟨r.balance_rub, r.balance_usdt - roundTo 6 am⟩) },
          some ⟨r.balance_rub, r.balance_usdt - roundTo 6 am⟩))
    ∧ (∀ r, getRow db.balances u = some r → r.balance_usdt < roundTo 6 am →
      balance_deduct_usdt db u am = (db, Option.none))
    ∧ (getRow db.balances u = Option.none →
      balance_deduct_usdt db u am = (db, Option.none)) := by
  have hc : ¬(db.enabled = false ∨ am ≤ 0) := by
    rw [hen]
    simp only [not_or]
    exact ⟨fun h2 => Bool.noConfusion h2, not_le.mpr hpos⟩
  refine ⟨?_, ?_, ?_, ?_, ?_, ?_⟩
  · intro r hrow hle
    unfold balance_deduct_rub
    rw [if_neg hc]
    split
    · rename_i r2 hrow2
      rw [hrow] at hrow2
      injection hrow2 with h2
      subst h2
      rw [if_pos hle]
    · rename_i hrow2
      rw [hrow] at hrow2
      exact Option.noConfusion hrow2
  · intro r hrow hlt
    unfold balance_deduct_rub
    rw [if_neg hc]
    split
    · rename_i r2 hrow2
      rw [hrow] at hrow2
      injection hrow2 with h2
      subst h2
      rw [if_neg (not_le.mpr hlt)]
    · rfl
  · intro hrow
    unfold balance_deduct_rub
    rw [if_neg hc]
    split
    · rename_i r2 hrow2
      rw [hrow] at hrow2
      exact Option.noConfusion hrow2
    · rfl
  · intro r hrow hle
    unfold balance_deduct_usdt
    rw [if_neg hc]
    split
    · rename_i r2 hrow2
      rw [hrow] at hrow2
      injection hrow2 with h2
      subst h2
      rw [if_pos hle]
    · rename_i hrow2
      rw [hrow] at hrow2
      exact Option.noConfusion hrow2
  · intro r hrow hlt
    unfold balance_deduct_usdt
    rw [if_neg hc]
    split
    · rename_i r2 hrow2
      rw [hrow] at hrow2
      injection hrow2 with h2
      subst h2
      rw [if_neg (not_le.mpr hlt)]
    · rfl
  · intro hrow
    unfold balance_deduct_usdt
    rw [if_neg hc]
    split
    · rename_i r2 hrow2
      rw [hrow] at hrow2
      exact Option.noConfusion hrow2
    · rfl

/-- Witness for C2: with rub 10 / usdt 3, a rub debit of 6 succeeds
leaving `(4, 3)`, and a usdt debit of 6 is refused. -/
theorem c2_witness :
    dbTen.enabled = true ∧ (0:ℚ) < 6 ∧
    balance_deduct_rub dbTen uS 6 =
      ({ dbTen with balances := (putRow dbTen.balances uS ⟨4, 3⟩) }, some ⟨4, 3⟩)
    ∧ balance_deduct_usdt dbTen uS 6 = (dbTen, Option.none) := by
  have h6 : roundTo 2 6 = 6 := by with_unfolding_all rfl
  have h66 : roundTo 6 6 = 6 := by with_unfolding_all rfl
  have hrow : getRow dbTen.balances uS = some ⟨10, 3⟩ := by with_unfolding_all rfl
  have hc := c2_deduct_conditional dbTen uS 6 rfl (by norm_num)
  refine ⟨rfl, by norm_num, ?_, ?_⟩
  · have h1 := hc.1 ⟨10, 3⟩ hrow (by rw [h6]; norm_num)
    rw [h6, show (10:ℚ) - 6 = 4 by norm_num] at h1
    exact h1
  · exact hc.2.2.2.2.1 ⟨10, 3⟩ hrow (by rw [h66]; norm_num)

/-- Counterexample to C3 as stated: on a zero balance, a single debit
with nominal amount `0.004 > 0` "succeeds" (its 2-digit rounding is
0), so the sum of the nominal amounts of the successful debits, 0.004,
exceeds the starting balance 0. -/
theorem c3_counterexample :
    (getRow dbZeroBal.balances uS).map (fun r => r.balance_rub) = some 0
    ∧ (deductResults dbZeroBal uS [1/250]).2 = [some ⟨0, 0⟩]
    ∧ succNominal [1/250] (deductResults dbZeroBal uS [1/250]).2 = 1/250
    ∧ ¬ ((1/250 : ℚ) ≤ 0) := by
  refine ⟨by with_unfolding_all rfl, by with_unfolding_all rfl,
    by with_unfolding_all rfl, by norm_num⟩

/-- C3 (amended): for any batch of concurrent rub debits against one
user (any interleaving of the atomic conditional updates), every call
returns an outcome (success or the insufficient-funds `None`), and the
sum of the effective (2-digit rounded) amounts of the successful
debits never exceeds the starting balance; in particular, from
`rub = 100`, two debits of 60 yield exactly one success with resulting
balance 40 and one insufficient-funds outcome. -/
theorem c3_concurrent_debits (db : DB) (u : String) (amts : List ℚ) (r : BalRow)
    (hrow : getRow db.balances u = some r) (hnn : 0 ≤ r.balance_rub) :
    (deductResults db u amts).2.length = amts.length
    ∧ succRounded amts (deductResults db u amts).2 ≤ r.balance_rub
    ∧ (deductResults dbHundred uS [60, 60]).2 = [some ⟨40, 0⟩, Option.none]
    ∧ getRow (deductResults dbHundred uS [60, 60]).1.balances uS = some ⟨40, 0⟩ := by
  refine ⟨deductResults_len amts db u, succRounded_le amts db u r hrow hnn,
    by with_unfolding_all rfl, by with_unfolding_all rfl⟩

/-- Witness for C3: the bound applied to the 100-balance store and the
two debits of 60. -/
theorem c3_witness :
    getRow dbHundred.balances uS = some ⟨100, 0⟩
    ∧ (0:ℚ) ≤ 100
    ∧ (deductResults dbHundred uS [60, 60]).2.length = 2
    ∧ succRounded [60, 60] (deductResults dbHundred uS [60, 60]).2 ≤ 100 := by
  have hrow : getRow dbHundred.balances uS = some ⟨100, 0⟩ := by with_unfolding_all rfl
  have h := c3_concurrent_debits dbHundred uS [60, 60] ⟨100, 0⟩ hrow (by norm_num)
  exact ⟨hrow, by norm_num, h.1, h.2.1⟩

/-- Counterexample to C4 as stated: `balance_add_rub` returns only a
success flag, not the post-update balance — the same value `True`
comes back from two credits whose post-update balances differ (50
versus 150). -/
theorem c4_counterexample :
    (balance_add_rub dbEmptyE uS 50).2 = (balance_add_rub dbHundred uS 50).2
    ∧ balance_get (balance_add_rub dbEmptyE uS 50).1 uS
        ≠ balance_get (balance_add_rub dbHundred uS 50).1 uS := by
  constructor
  · with_unfolding_all rfl
  · have h1 : balance_get (balance_add_rub dbEmptyE uS 50).1 uS = ⟨50, 0⟩ := by
      with_unfolding_all rfl
    have h2 : balance_get (balance_add_rub dbHundred uS 50).1 uS = ⟨150, 0⟩ := by
      with_unfolding_all rfl
    rw [h1, h2]
    intro hx
    have h3 : (50:ℚ) = 150 := congrArg BalRow.balance_rub hx
    norm_num at h3

/-- C4 (amended): with the store enabled and `amount > 0`, the credit
operations return `True` (a success flag; the post-update balance is
observable via `balance_get`, not the return value), add
`round(amount, precision)` to the specified currency field, and create
the row with the other currency field at 0 when it is absent. -/
theorem c4_credit_upsert (db : DB) (u : String) (am : ℚ)
    (hen : db.enabled = true) (hpos : 0 < am) :
    (balance_add_rub db u am).2 = true
    ∧ (getRow db.balances u = Option.none →
        getRow (balance_add_rub db u am).1.balances u = some ⟨roundTo 2 am, 0⟩)
    ∧ (∀ r, getRow db.balances u = some r →
        getRow (balance_add_rub db u am).1.balances u
          = some ⟨r.balance_rub + roundTo 2 am, r.balance_usdt⟩)
    ∧ (balance_add_usdt db u am).2 = true
    ∧ (getRow db.balances u = Option.none →
        getRow (balance_add_usdt db u am).1.balances u = some ⟨0, roundTo 6 am⟩)
    ∧ (∀ r, getRow db.balances u = some r →
        getRow (balance_add_usdt db u am).1.balances u
          = some ⟨r.balance_rub, r.balance_usdt + roundTo 6 am⟩) := by
  have hc : ¬(db.enabled = false ∨ am ≤ 0) := by
    rw [hen]
    simp only [not_or]
    exact ⟨fun h2 => Bool.noConfusion h2, not_le.mpr hpos⟩
  refine ⟨?_, ?_, ?_, ?_, ?_, ?_⟩
  · unfold balance_add_rub
    rw [if_neg hc]
    split
    · rfl
    · rfl
  · intro hrow
    unfold balance_add_rub
    rw [if_neg hc]
    split
    · rename_i hrow2
      show getRow (putRow db.balances u ⟨roundTo 2 am, 0⟩) u = _
      rw [getRow_putRow, if_pos rfl]
    · rename_i r2 hrow2
      rw [hrow] at hrow2
      exact Option.noConfusion hrow2
  · intro r hrow
    unfold balance_add_rub
    rw [if_neg hc]
    split
    · rename_i hrow2
      rw [hrow] at hrow2
      exact Option.noConfusion hrow2
    · rename_i r2 hrow2
      rw [hrow] at hrow2
      injection hrow2 with h2
      subst h2
      show getRow (putRow db.balances u ⟨r.balance_rub + roundTo 2 am, r.balance_usdt⟩) u = _
      rw [getRow_putRow, if_pos rfl]
  · unfold balance_add_usdt
    rw [if_neg hc]
    split
    · rfl
    · rfl
  · intro hrow
    unfold balance_add_usdt
    rw [if_neg hc]
    split
    · rename_i hrow2
      show getRow (putRow db.balances u ⟨0, roundTo 6 am⟩) u = _
      rw [getRow_putRow, if_pos rfl]
    · rename_i r2 hrow2
      rw [hrow] at hrow2
      exact Option.noConfusion hrow2
  · intro r hrow
    unfold balance_add_usdt
    rw [if_neg hc]
    split
    · rename_i hrow2
      rw [hrow] at hrow2
      exact Option.noConfusion hrow2
    · rename_i r2 hrow2
      rw [hrow] at hrow2
      injection hrow2 with h2
      subst h2
      show getRow (putRow db.balances u ⟨r.balance_rub, r.balance_usdt + roundTo 6 am⟩) u = _
      rw [getRow_putRow, if_pos rfl]

/-- Witness for C4: crediting 50 rub to a non-existent row returns
`True` and creates the row as `(50, 0)`. -/
theorem c4_witness :
    dbEmptyE.enabled = true ∧ (0:ℚ) < 50
    ∧ getRow dbEmptyE.balances uS = Option.none
    ∧ (balance_add_rub dbEmptyE uS 50).2 = true
    ∧ getRow (balance_add_rub dbEmptyE uS 50).1.balances uS = some ⟨50, 0⟩ := by
  have h := c4_credit_upsert dbEmptyE uS 50 rfl (by norm_num)
  have h50 : roundTo 2 50 = 50 := by with_unfolding_all rfl
  refine ⟨rfl, by norm_num, rfl, h.1, ?_⟩
  have h2 := h.2.1 rfl
  rw [h50] at h2
  exact h2

/-- Counterexample to C5 as stated: the claim does not restrict itself
to the enabled store; with the store disabled (for example after the
startup connection failed) and an existing referral row with
`volume_rub = 10`, `ref_add_earned` with deltas (5, 5) changes
nothing, so nothing was added. -/
theorem c5_counterexample :
    dbDisRef.enabled = false
    ∧ ref_add_earned dbDisRef uS 5 5 = dbDisRef
    ∧ (getRow (ref_add_earned dbDisRef uS 5 5).referrals uS).map (fun r => r.volume_rub)
        = some 10
    ∧ ((10:ℚ) ≠ 10 + 5) := by
  refine ⟨rfl, rfl, by with_unfolding_all rfl, by norm_num⟩

/-- C5 (amended): with the store enabled, for every user with an
existing referral row and non-negative deltas, `ref_add_earned` adds
the volume delta to `volume_rub` and the earned delta to `earned_rub`
in one update; for a user with no referral row it changes nothing and
creates no row. -/
theorem c5_accrual_when_enabled (db : DB) (u : String) (vd ed : ℚ)
    (hen : db.enabled = true) (hv : 0 ≤ vd) (he : 0 ≤ ed) :
    (∀ r, getRow db.referrals u = some r →
      ref_add_earned db u vd ed =
        { db with referrals := (putRow db.referrals u
            { r with volume_rub := r.volume_rub + vd, earned_rub := r.earned_rub + ed }) })
    ∧ (getRow db.referrals u = Option.none → ref_add_earned db u vd ed = db) := by
  have hc : ¬ db.enabled = false := by
    rw [hen]
    exact fun h2 => Bool.noConfusion h2
  constructor
  · intro r hrow
    unfold ref_add_earned
    rw [if_neg hc]
    split
    · rename_i hrow2
      rw [hrow] at hrow2
      exact Option.noConfusion hrow2
    · rename_i r2 hrow2
      rw [hrow] at hrow2
      injection hrow2 with h2
      subst h2
      rfl
  · intro hrow
    unfold ref_add_earned
    rw [if_neg hc]
    split
    · rfl
    · rename_i r2 hrow2
      rw [hrow] at hrow2
      exact Option.noConfusion hrow2

/-- Witness for C5: adding (5, 3) to an existing row with volume 10
and earned 0 yields volume 15 and earned 3; on a store without the
row, nothing changes. -/
theorem c5_witness :
    dbRefEnabled.enabled = true ∧ (0:ℚ) ≤ 5 ∧ (0:ℚ) ≤ 3
    ∧ (getRow (ref_add_earned dbRefEnabled uS 5 3).referrals uS).map (fun r => r.volume_rub)
        = some 15
    ∧ (getRow (ref_add_earned dbRefEnabled uS 5 3).referrals uS).map (fun r => r.earned_rub)
        = some 3
    ∧ ref_add_earned dbEmptyE uS 5 3 = dbEmptyE := by
  have h := (c5_accrual_when_enabled dbRefEnabled uS 5 3 rfl (by norm_num) (by norm_num)).1
    refRowTen (by with_unfolding_all rfl)
  have h0 := (c5_accrual_when_enabled dbEmptyE uS 5 3 rfl (by norm_num) (by norm_num)).2 rfl
  refine ⟨rfl, by norm_num, by norm_num, ?_, ?_, h0⟩
  · rw [h]
    with_unfolding_all rfl
  · rw [h]
    with_unfolding_all rfl

/-- Counterexample to C6: a referral row with `parent1 = "A"` already
set is overwritten to `parent1 = "B"` by a later `ref_save` (the
upsert's `ON CONFLICT ... DO UPDATE SET parent1 = EXCLUDED.parent1`
replaces parent links wholesale). -/
theorem c6_counterexample :
    (getRow dbParentA.referrals uS).map (fun r => r.parent1) = some (some sA)
    ∧ (getRow (ref_save dbParentA uS dataParentB).referrals uS).map (fun r => r.parent1)
        = some (some sB)
    ∧ some sB ≠ (some sA : Option String) := by
  refine ⟨by with_unfolding_all rfl, by with_unfolding_all rfl, ?_⟩
  intro hx
  injection hx with h2
  have h3 : sB ≠ sA := by with_unfolding_all decide
  exact h3 h2

/-- C6 (amended): `ref_save` replaces the parent links wholesale with
the values of the record being saved, whatever was stored before;
immutability of parent links is not enforced by the store and is left
to callers. -/
theorem c6_save_replaces_parents (db : DB) (u : String) (data : RefData)
    (hen : db.enabled = true) :
    (getRow (ref_save db u data).referrals u).map (fun r => (r.parent1, r.parent2, r.parent3))
      = some (data.parent1, data.parent2, data.parent3) := by
  have hc : ¬ db.enabled = false := by
    rw [hen]
    exact fun h2 => Bool.noConfusion h2
  unfold ref_save
  rw [if_neg hc]
  dsimp only
  rw [getRow_putRow, if_pos rfl]
  rfl

/-- Witness for C6: saving a record with `parent1 = "B"` over a row
whose `parent1` is `"A"` leaves `parent1 = "B"` stored. -/
theorem c6_witness :
    dbParentA.enabled = true
    ∧ (getRow (ref_save dbParentA uS dataParentB).referrals uS).map
        (fun r => (r.parent1, r.parent2, r.parent3))
      = some (dataParentB.parent1, dataParentB.parent2, dataParentB.parent3) :=
  ⟨rfl, c6_save_replaces_parents dbParentA uS dataParentB rfl⟩

/-- Counterexample to C7 as stated: `ref_add_earned` performs no
amount validation; with the store enabled and an existing row with
volume 10, calling it with the non-positive delta −5 mutates the
stored state (volume becomes 5). -/
theorem c7_counterexample :
    ((-5:ℚ) ≤ 0)
    ∧ (getRow dbRefEnabled.referrals uS).map (fun r => r.volume_rub) = some 10
    ∧ (getRow (ref_add_earned dbRefEnabled uS (-5) (-5)).referrals uS).map
        (fun r => r.volume_rub) = some 5
    ∧ ((5:ℚ) ≠ 10) := by
  refine ⟨by norm_num, by with_unfolding_all rfl, by with_unfolding_all rfl, by norm_num⟩

/-- C7 (amended): the four balance operations reject `amount ≤ 0`
before any store access, returning a failure result (`False` /
`None`) and leaving the store unchanged; `ref_add_earned`, by
contrast, performs no amount validation and applies even non-positive
deltas to an existing row. -/
theorem c7_nonpositive_amounts (db : DB) (u : String) (am : ℚ) (ham : am ≤ 0) :
    balance_add_rub db u am = (db, false)
    ∧ balance_add_usdt db u am = (db, false)
    ∧ balance_deduct_rub db u am = (db, Option.none)
    ∧ balance_deduct_usdt db u am = (db, Option.none)
    ∧ (∀ r, db.enabled = true → getRow db.referrals u = some r →
        ref_add_earned db u am am =
          { db with referrals := (putRow db.referrals u
              { r with volume_rub := r.volume_rub + am, earned_rub := r.earned_rub + am }) }) := by
  have hc : db.enabled = false ∨ am ≤ 0 := Or.inr ham
  refine ⟨?_, ?_, ?_, ?_, ?_⟩
  · unfold balance_add_rub
    rw [if_pos hc]
  · unfold balance_add_usdt
    rw [if_pos hc]
  · unfold balance_deduct_rub
    rw [if_pos hc]
  · unfold balance_deduct_usdt
    rw [if_pos hc]
  · intro r hen hrow
    have hc2 : ¬ db.enabled = false := by
      rw [hen]
      exact fun h2 => Bool.noConfusion h2
    unfold ref_add_earned
    rw [if_neg hc2]
    split
    · rename_i hrow2
      rw [hrow] at hrow2
      exact Option.noConfusion hrow2
    · rename_i r2 hrow2
      rw [hrow] at hrow2
      injection hrow2 with h2
      subst h2
      rfl

/-- Witness for C7: a credit and a debit of −7 are both rejected with
the store unchanged, while `ref_add_earned` with delta −7 really
mutates the row (volume 10 becomes 3). -/
theorem c7_witness :
    ((-7:ℚ) ≤ 0)
    ∧ balance_add_rub dbTen uS (-7) = (dbTen, false)
    ∧ balance_deduct_rub dbTen uS (-7) = (dbTen, Option.none)
    ∧ (getRow (ref_add_earned dbRefEnabled uS (-7) (-7)).referrals uS).map
        (fun r => r.volume_rub) = some 3 := by
  have h := c7_nonpositive_amounts dbTen uS (-7) (by norm_num)
  have h2 := (c7_nonpositive_amounts dbRefEnabled uS (-7) (by norm_num)).2.2.2.2
    refRowTen rfl (by with_unfolding_all rfl)
  refine ⟨by norm_num, h.1, h.2.2.1, ?_⟩
  rw [h2]
  with_unfolding_all rfl

/-- Counterexample to C8 as stated: with the store disabled,
`ref_get_or_create` returns `None`, not a zero-valued default
record. -/
theorem c8_counterexample :
    dbDisabled.enabled = false
    ∧ (ref_get_or_create dbDisabled uS).2 = Option.none
    ∧ (Option.none : Option RefOut) ≠ some zeroRefOut :=
  ⟨rfl, rfl, fun hx => Option.noConfusion hx⟩

/-- C8 (amended): when the store is disabled, `balance_get` returns
the zero balance and `ref_load_all` the empty mapping;
`ref_get_or_create` returns `None` (no record at all, rather than a
zero-valued default); and every mutating operation is a no-op, the
balance mutations returning a failure result (`False` / `None`) and
the referral mutations returning nothing. -/
theorem c8_disabled_state (db : DB) (u : String) (am vd ed : ℚ) (data : RefData)
    (hdis : db.enabled = false) :
    balance_get db u = ⟨0, 0⟩
    ∧ ref_load_all db = []
    ∧ ref_get_or_create db u = (db, Option.none)
    ∧ balance_add_rub db u am = (db, false)
    ∧ balance_add_usdt db u am = (db, false)
    ∧ balance_deduct_rub db u am = (db, Option.none)
    ∧ balance_deduct_usdt db u am = (db, Option.none)
    ∧ ref_save db u data = db
    ∧ ref_add_earned db u vd ed = db := by
  refine ⟨?_, ?_, ?_, ?_, ?_, ?_, ?_, ?_, ?_⟩
  · unfold balance_get
    rw [if_pos hdis]
  · unfold ref_load_all
    rw [if_pos hdis]
  · unfold ref_get_or_create
    rw [if_pos hdis]
  · unfold balance_add_rub
    rw [if_pos (Or.inl hdis)]
  · unfold balance_add_usdt
    rw [if_pos (Or.inl hdis)]
  · unfold balance_deduct_rub
    rw [if_pos (Or.inl hdis)]
  · unfold balance_deduct_usdt
    rw [if_pos (Or.inl hdis)]
  · unfold ref_save
    rw [if_pos hdis]
  · unfold ref_add_earned
    rw [if_pos hdis]

/-- Witness for C8: the disabled store with a stored referral row:
reads return defaults, `ref_get_or_create` returns `None`, mutations
change nothing. -/
theorem c8_witness :
    dbDisRef.enabled = false
    ∧ balance_get dbDisRef uS = ⟨0, 0⟩
    ∧ ref_load_all dbDisRef = []
    ∧ ref_get_or_create dbDisRef uS = (dbDisRef, Option.none)
    ∧ balance_add_rub dbDisRef uS 5 = (dbDisRef, false)
    ∧ ref_save dbDisRef uS dataW = dbDisRef := by
  have h := c8_disabled_state dbDisRef uS 5 1 2 dataW rfl
  exact ⟨rfl, h.1, h.2.1, h.2.2.1, h.2.2.2.1, h.2.2.2.2.2.2.2.1⟩

/-- The referral dict produced for a freshly saved well-typed record
is the record itself (the stored JSONB lists come back unchanged
through the coercion). -/
theorem row_to_ref_saved (data : RefData) :
    _row_to_ref ⟨data.parent1, data.parent2, data.parent3,
      PyVal.vlist (data.referrals_l1.map PyVal.vstr),
      PyVal.vlist (data.referrals_l2.map PyVal.vstr),
      PyVal.vlist (data.referrals_l3.map PyVal.vstr),
      data.earned_rub, data.volume_rub, data.username, data.first_name⟩ =
    ⟨data.parent1, data.parent2, data.parent3,
      PyVal.vlist (data.referrals_l1.map PyVal.vstr),
      PyVal.vlist (data.referrals_l2.map PyVal.vstr),
      PyVal.vlist (data.referrals_l3.map PyVal.vstr),
      data.earned_rub, data.volume_rub, data.username, data.first_name⟩ := by
  unfold _row_to_ref
  dsimp only
  rw [orEmpty_coerce_vlist, orEmpty_coerce_vlist, orEmpty_coerce_vlist]

/-- C9: with the store enabled, `ref_save` followed by
`ref_get_or_create` on the same user returns a record whose
parent1/parent2/parent3, referrals lists, earned_rub and volume_rub
are field-for-field identical to the saved data (timestamps are not
modelled). -/
theorem c9_save_get_roundtrip (db : DB) (u : String) (data : RefData)
    (hen : db.enabled = true) :
    (ref_get_or_create (ref_save db u data) u).2 = some
      ⟨data.parent1, data.parent2, data.parent3,
        PyVal.vlist (data.referrals_l1.map PyVal.vstr),
        PyVal.vlist (data.referrals_l2.map PyVal.vstr),
        PyVal.vlist (data.referrals_l3.map PyVal.vstr),
        data.earned_rub, data.volume_rub, data.username, data.first_name⟩ := by
  have hc : ¬ db.enabled = false := by
    rw [hen]
    exact fun h2 => Bool.noConfusion h2
  unfold ref_save
  rw [if_neg hc]
  unfold ref_get_or_create
  dsimp only
  rw [if_neg hc]
  rw [getRow_putRow, if_pos rfl]
  show some (_row_to_ref ⟨data.parent1, data.parent2, data.parent3,
      PyVal.vlist (data.referrals_l1.map PyVal.vstr),
      PyVal.vlist (data.referrals_l2.map PyVal.vstr),
      PyVal.vlist (data.referrals_l3.map PyVal.vstr),
      data.earned_rub, data.volume_rub, data.username, data.first_name⟩) = _
  rw [row_to_ref_saved]

/-- Witness for C9: a concrete record round-trips through save and
get; its earned field and parent1 read back as saved. -/
theorem c9_witness :
    dbEmptyE.enabled = true
    ∧ (ref_get_or_create (ref_save dbEmptyE uS dataW) uS).2 = some
        ⟨dataW.parent1, dataW.parent2, dataW.parent3,
          PyVal.vlist (dataW.referrals_l1.map PyVal.vstr),
          PyVal.vlist (dataW.referrals_l2.map PyVal.vstr),
          PyVal.vlist (dataW.referrals_l3.map PyVal.vstr),
          dataW.earned_rub, dataW.volume_rub, dataW.username, dataW.first_name⟩
    ∧ ((ref_get_or_create (ref_save dbEmptyE uS dataW) uS).2).map (fun r => r.earned_rub)
        = some 7
    ∧ ((ref_get_or_create (ref_save dbEmptyE uS dataW) uS).2).map (fun r => r.parent1)
        = some (some sA) := by
  have h := c9_save_get_roundtrip dbEmptyE uS dataW rfl
  refine ⟨rfl, h, ?_, ?_⟩
  · rw [h]
    with_unfolding_all rfl
  · rw [h]
    with_unfolding_all rfl

/-- Counterexample to C10 as stated: a stored `referrals_l1` value
that is the string `"5"` — a string that IS valid JSON but does not
encode a list — is returned as the parsed number 5, not as a list and
not as the empty list. -/
theorem c10_counterexample :
    (getRow dbJson.referrals uS).map (fun r => strOf r.referrals_l1) = some s5
    ∧ ((ref_get_or_create dbJson uS).2).map (fun r => PyVal.isList r.referrals_l1)
        = some false
    ∧ ((ref_get_or_create dbJson uS).2).map (fun r => numOf r.referrals_l1) = some 5 := by
  refine ⟨by with_unfolding_all rfl, by with_unfolding_all rfl, by with_unfolding_all rfl⟩

/-- C10 (amended): the records returned by `ref_get_or_create` and
`ref_load_all` coerce each `referrals_l*` cell; when the stored value
is null, a plain non-iterable value (number, boolean, float), or a
string that is empty, rejected by `json.loads` (which accepts the JSON
grammar plus `NaN`/`Infinity`/`-Infinity` and, being strict, rejects
raw control characters inside string literals), or parses to a falsy
JSON value, the field comes back as the empty list and no error is
raised.  (A string parsing to a truthy non-list value comes back as
that parsed value instead — see the counterexample — and a mapping
comes back as its list of keys.) -/
theorem c10_list_coercion (db : DB) (u : String) (row : RefRow)
    (hen : db.enabled = true) (hrow : getRow db.referrals u = some row) :
    (ref_get_or_create db u).2 = some (_row_to_ref row)
    ∧ (u, _row_to_ref row) ∈ ref_load_all db
    ∧ (plainBadCell row.referrals_l1 = true →
        (_row_to_ref row).referrals_l1 = PyVal.vlist [])
    ∧ (plainBadCell row.referrals_l2 = true →
        (_row_to_ref row).referrals_l2 = PyVal.vlist [])
    ∧ (plainBadCell row.referrals_l3 = true →
        (_row_to_ref row).referrals_l3 = PyVal.vlist []) := by
  have hc : ¬ db.enabled = false := by
    rw [hen]
    exact fun h2 => Bool.noConfusion h2
  refine ⟨?_, ?_, ?_, ?_, ?_⟩
  · unfold ref_get_or_create
    rw [if_neg hc]
    split
    · rename_i row2 hrow2
      rw [hrow] at hrow2
      injection hrow2 with h2
      subst h2
      rfl
    · rename_i hrow2
      rw [hrow] at hrow2
      exact Option.noConfusion hrow2
  · unfold ref_load_all
    rw [if_neg hc]
    exact List.mem_map.mpr ⟨(u, row), getRow_mem db.referrals u row hrow, rfl⟩
  · intro hb
    show orEmpty (coerceCell row.referrals_l1) = PyVal.vlist []
    exact badCell_empty _ hb
  · intro hb
    show orEmpty (coerceCell row.referrals_l2) = PyVal.vlist []
    exact badCell_empty _ hb
  · intro hb
    show orEmpty (coerceCell row.referrals_l3) = PyVal.vlist []
    exact badCell_empty _ hb

/-- Witness for C10: a row with cells `None`, the invalid-JSON string
`"xyz"` and the number 7 has all three list fields read back as the
empty list. -/
theorem c10_witness :
    dbBadCells.enabled = true
    ∧ getRow dbBadCells.referrals uS = some rowBadCells
    ∧ plainBadCell rowBadCells.referrals_l1 = true
    ∧ plainBadCell rowBadCells.referrals_l2 = true
    ∧ plainBadCell rowBadCells.referrals_l3 = true
    ∧ (ref_get_or_create dbBadCells uS).2 = some (_row_to_ref rowBadCells)
    ∧ (_row_to_ref rowBadCells).referrals_l1 = PyVal.vlist []
    ∧ (_row_to_ref rowBadCells).referrals_l2 = PyVal.vlist []
    ∧ (_row_to_ref rowBadCells).referrals_l3 = PyVal.vlist [] := by
  have hrow : getRow dbBadCells.referrals uS = some rowBadCells := by with_unfolding_all rfl
  have hb1 : plainBadCell rowBadCells.referrals_l1 = true := by with_unfolding_all rfl
  have hb2 : plainBadCell rowBadCells.referrals_l2 = true := by with_unfolding_all rfl
  have hb3 : plainBadCell rowBadCells.referrals_l3 = true := by with_unfolding_all rfl
  have h := c10_list_coercion dbBadCells uS rowBadCells rfl hrow
  exact ⟨rfl, hrow, hb1, hb2, hb3, h.1, h.2.2.1 hb1, h.2.2.2.1 hb2, h.2.2.2.2 hb3⟩

end JetDb
